import Mathlib

/-!
Verification development for the mindmap-generator repository.

The TypeScript sources are shallowly embedded into Lean: untrusted runtime
values (JSON payloads, CSV rows) are modelled by the inductive `JSVal`;
fallible operations are modelled with `Except`; the per-row and per-batch
behaviour of `MindMapService` is modelled as pure state-passing functions
parameterised by the behaviour of the injected collaborators (generator,
storage, CSV writer) and by the non-deterministic completion order of the
concurrently processed rows.
-/

set_option autoImplicit false

namespace MMG

/-- Model of a JavaScript runtime value as produced by `JSON.parse` or by the
CSV reader.  `undefined` models the JavaScript value `undefined` (in particular the
result of reading an absent property).  Numbers are modelled as integers: no
claim in this development depends on non-integral numerics. -/
inductive JSVal where
  | undefined : JSVal
  | null : JSVal
  | bool : Bool → JSVal
  | num : Int → JSVal
  | str : String → JSVal
  | arr : List JSVal → JSVal
  | obj : List (String × JSVal) → JSVal
deriving Repr

/-- Property lookup in an object's field list (JavaScript objects are modelled
as association lists without duplicate keys; lookup takes the first match). -/
def getFromFields : List (String × JSVal) → String → JSVal
  | [], _ => .undefined
  | (k, v) :: rest, key => if k = key then v else getFromFields rest key

/-- JavaScript property access `v[key]`: yields the field of an object and
`undefined` otherwise.  (Accesses on `null`/`undefined` throw in JavaScript;
every such access in the embedded code is guarded, so `undefined` is safe here.) -/
def JSVal.getProp : JSVal → String → JSVal
  | .obj fields, key => getFromFields fields key
  | _, _ => .undefined

/-- JavaScript truthiness of a value. -/
def JSVal.truthy : JSVal → Bool
  | .undefined => false
  | .null => false
  | .bool b => b
  | .num n => decide (n ≠ 0)
  | .str s => decide (s ≠ "")
  | .arr _ => true
  | .obj _ => true

/-- Whether a value is a string (`typeof v === 'string'`). -/
def JSVal.isStr : JSVal → Bool
  | .str _ => true
  | _ => false

/-- JavaScript `a || b` on a value, with a string fallback (used for
`row.topic || 'Unknown Topic'` in `MindMapService.processRow`). -/
def jsOrStr (v : JSVal) (fallback : String) : JSVal :=
  if v.truthy then v else .str fallback

/-! ### Storage keys (`local-storage.service.ts` / `storage.service.ts`) -/

/-- The characters matched by the JavaScript regexp class `\s`
(whitespace and line terminators, ECMA-262). -/
def isJsWhitespace (c : Char) : Bool :=
  [0x9, 0xa, 0xb, 0xc, 0xd, 0x20, 0xa0, 0x1680, 0x2028, 0x2029,
    0x202f, 0x205f, 0x3000, 0xfeff].contains c.toNat ||
  (0x2000 ≤ c.toNat && c.toNat ≤ 0x200a)

/-- Character-list worker for `String.replace(/\s+/g, '_')`: the flag records
whether the previous character belonged to a whitespace run (in which case the
single replacement `_` was already emitted). -/
def replaceWsRunsGo : List Char → Bool → List Char
  | [], _ => []
  | c :: cs, inRun =>
    if isJsWhitespace c then
      if inRun then replaceWsRunsGo cs true else '_' :: replaceWsRunsGo cs true
    else c :: replaceWsRunsGo cs false

/-- Embeds the TypeScript expression `s.replace(/\s+/g, '_')`: every maximal
run of whitespace characters is replaced by a single underscore. -/
def replaceWsRuns (s : String) : String :=
  ⟨replaceWsRunsGo s.data false⟩

/-- Typed mind-map node (`MindMapNode` in `src/types/index.ts`), as persisted. -/
inductive MindMapNodeT where
  | mk : String → String → Option (List MindMapNodeT) → MindMapNodeT
deriving Repr

/-- Typed persisted document (`MindMap` in `src/types/index.ts`). -/
structure MindMapDoc where
  id : String
  subject : String
  topic : String
  root : MindMapNodeT
  createdAt : String
deriving Repr

/-- Embeds the file-name computation of `LocalStorageService.storeMindMap`
(src/src/services/local-storage.service.ts): the returned storage key is
`subject.replace(/\s+/g,'_') + '_' + topic.replace(/\s+/g,'_') + '_' + id + '.json'`. -/
def localStorageKey (m : MindMapDoc) : String :=
  replaceWsRuns m.subject ++ "_" ++ replaceWsRuns m.topic ++ "_" ++ m.id ++ ".json"

/-- Embeds the identical file-name computation of `StorageService.storeMindMap`
(src/src/services/storage.service.ts, the Google-Cloud-Storage backend). -/
def gcsStorageKey (m : MindMapDoc) : String :=
  replaceWsRuns m.subject ++ "_" ++ replaceWsRuns m.topic ++ "_" ++ m.id ++ ".json"

/-! ### `parseInt` and the local listing (`LocalStorageService.getAllMindMaps`) -/

/-- Decimal digit-prefix accumulator for `parseInt(s, 10)`. -/
def parseDigits : List Char → Nat → Option Nat → Option Nat
  | [], _, acc => acc
  | c :: cs, n, acc =>
    if c.isDigit then parseDigits cs (n * 10 + (c.toNat - '0'.toNat)) (some (n * 10 + (c.toNat - '0'.toNat)))
    else acc

/-- Embeds JavaScript `parseInt(s, 10)`: skip leading whitespace, read an
optional sign, then the longest decimal-digit prefix; `none` models `NaN`
(no digits).  Numeric overflow to floating point is not modelled; the tokens
appearing in this development are small. -/
def jsParseInt10 (s : String) : Option Int :=
  let rest := s.data.dropWhile isJsWhitespace
  match rest with
  | '-' :: ds => (parseDigits ds 0 none).map (fun n => -(n : Int))
  | '+' :: ds => (parseDigits ds 0 none).map (fun n => (n : Int))
  | ds => (parseDigits ds 0 none).map (fun n => (n : Int))

/-- Whether a page token parses (via `parseInt(_, 10)`) as a non-negative
integer — the condition `!isNaN(parsedOffset) && parsedOffset >= 0` in
`LocalStorageService.getAllMindMaps`. -/
def parsesAsNonnegInt (tok : String) : Bool :=
  match jsParseInt10 tok with
  | some v => decide (0 ≤ v)
  | none => false

/-- Return shape of `LocalStorageService.getAllMindMaps` (the token-paginated
variant actually returned by that service). -/
structure LocalPage where
  mindMaps : List MindMapDoc
  total : Nat
  nextPageToken : Option String
deriving Repr

/-- Warning message logged by `LocalStorageService.getAllMindMaps` for an
unusable page token. -/
def invalidTokenWarning (tok : String) : String :=
  "Invalid pageToken received: " ++ tok ++ ". Defaulting to offset 0."

/-- Embeds the offset computation at the top of
`LocalStorageService.getAllMindMaps`: a missing or falsy (empty) token gives
offset 0 silently; a token parsing to a non-negative integer gives that
offset; any other token gives offset 0 together with a logged warning. -/
def localListOffset (pageToken : Option String) : Nat × List String :=
  match pageToken with
  | none => (0, [])
  | some tok =>
    if tok = "" then (0, [])
    else
      match jsParseInt10 tok with
      | some v => if 0 ≤ v then (v.toNat, []) else (0, [invalidTokenWarning tok])
      | none => (0, [invalidTokenWarning tok])

/-- Embeds `LocalStorageService.getAllMindMaps`
(src/src/services/local-storage.service.ts).  The directory is modelled as
`none` when the storage path does not exist, otherwise as the list of
directory entries, each a file name paired with `some` parsed document or
`none` when reading/parsing that file fails (such entries are skipped with a
warning).  The result pairs the returned page with the warnings logged. -/
def getAllMindMapsLocal (dir : Option (List (String × Option MindMapDoc)))
    (pageToken : Option String) (limit : Nat) : LocalPage × List String :=
  let (offset, warns) := localListOffset pageToken
  match dir with
  | none => ({ mindMaps := [], total := 0, nextPageToken := none }, warns)
  | some entries =>
    let files := entries.filter (fun e => e.1.endsWith ".json")
    let total := files.length
    let currentOffset := min offset total
    let paginatedFiles := (files.drop currentOffset).take limit
    let mindMaps := paginatedFiles.filterMap (fun e => e.2)
    let parseWarns := (paginatedFiles.filter (fun e => e.2.isNone)).map
      (fun e => "Error reading or parsing local mind map file " ++ e.1)
    let nextOffset := currentOffset + paginatedFiles.length
    let nextPageToken := if nextOffset < total then some (toString nextOffset) else none
    ({ mindMaps := mindMaps, total := total, nextPageToken := nextPageToken },
     warns ++ parseWarns)

/-! ### Chunk partition in `MindMapService.processMindMaps` -/

/-- Embeds the chunking expression of `MindMapService.processMindMaps`:
`Array.from({length: Math.ceil(rows.length / batchSize)}).map((_, i) =>
rows.slice(i * batchSize, (i + 1) * batchSize))`.  For `batchSize ≥ 1` the
Nat expression `(n + batchSize - 1) / batchSize` is exactly
`Math.ceil(n / batchSize)` (a `batchSize` of 0 makes the JavaScript
expression raise a `RangeError`; the model is only used with positive
`batchSize`, matching every call site). -/
def chunksOf (batchSize : Nat) (rows : List JSVal) : List (List JSVal) :=
  (List.range ((rows.length + batchSize - 1) / batchSize)).map
    (fun i => (rows.drop (i * batchSize)).take batchSize)

/-- Default `batchSize` of `MindMapService.processMindMaps`
(`batchSize: number = 100`). -/
def defaultBatchSize : Nat := 100

/-- Default `maxConcurrent` of `MindMapService.processMindMaps`
(`maxConcurrent: number = 5`). -/
def defaultMaxConcurrent : Nat := 5


/-! ### Error taxonomy (`errors/error-types.ts`, `validation.service.ts`) -/

/-- Error classes of the repository, tracking the JavaScript prototype chains
needed for the `instanceof` checks in the embedded code.  `svcValidationError`
is the `ValidationError` class exported by `validation.service.ts` (it extends
`Error` directly); `etValidationError` is the distinct `ValidationError` class
of `errors/error-types.ts` (it extends `AppError`).  The two classes are
unrelated: neither appears in the other's prototype chain. -/
inductive ErrClass where
  | plainError
  | appError
  | svcValidationError
  | etValidationError
  | externalAPIError
  | timeoutError
  | fileSystemError
  | storageServiceError
deriving Repr, DecidableEq

/-- A thrown JavaScript error: its class together with its `message`.  (The
embedded code only throws `Error` instances; a non-`Error` throw would be
normalised by `new Error(String(err))` in `processRow`.) -/
structure JsErr where
  cls : ErrClass
  message : String
deriving Repr, DecidableEq

/-- `error instanceof ValidationError` where `ValidationError` is the class
defined in `validation.service.ts`.  That class has no subclasses, so only
its own instances match; in particular an `errors/error-types.ts`
`ValidationError` does NOT match. -/
def isInstanceOfSvcValidationError (e : JsErr) : Bool :=
  e.cls = ErrClass.svcValidationError

/-! ### Ajv validators compiled by `ValidationService` (`validation.service.ts`)

`ValidationService` compiles its schemas with
`new Ajv({allErrors: true, removeAdditional: true, useDefaults: true,
coerceTypes: true, allowUnionTypes: true})`. -/

/-- Ajv type coercion to `string` (option `coerceTypes: true`): numbers and
booleans stringify, `null` coerces to the empty string, any other non-string
is not coercible. -/
def ajvCoerceToString : JSVal → Option String
  | .str s => some s
  | .num n => some (toString n)
  | .bool b => some (if b then "true" else "false")
  | .null => some ""
  | _ => none

/-- Value satisfies `{type: 'string', minLength: 1}` under `coerceTypes`. -/
def coercesToNonEmptyString (v : JSVal) : Bool :=
  match ajvCoerceToString v with
  | some s => decide (1 ≤ s.length)
  | none => false

/-- Embeds the compiled `CSVInputRowSchema` validator of `ValidationService`:
the data must be an object; because the service's Ajv instance is built with
`removeAdditional: true` and the schema says `additionalProperties: false`,
properties other than `subject`/`topic` are REMOVED from the data rather than
rejected; `subject` and `topic` must be present and (after coercion) strings
of length at least 1. -/
def validateCSVInputRow : JSVal → Bool
  | .obj fields =>
    coercesToNonEmptyString (getFromFields fields "subject") &&
    coercesToNonEmptyString (getFromFields fields "topic")
  | _ => false

/-- The mutation the compiled `CSVInputRowSchema` validator performs on a
(valid) object: fields other than `subject`/`topic` are deleted
(`removeAdditional: true` with `additionalProperties: false`) and the two kept
values are replaced by their string coercions (`coerceTypes: true`). -/
def sanitizeCSVFields (fields : List (String × JSVal)) : List (String × JSVal) :=
  fields.filterMap (fun kv =>
    if kv.1 = "subject" ∨ kv.1 = "topic" then
      some (kv.1, match ajvCoerceToString kv.2 with
                  | some s => JSVal.str s
                  | none => kv.2)
    else none)

/-- Embeds `ValidationService.validateCSVInputRowOrThrow`: throws the
`validation.service.ts` `ValidationError` with message
`'Invalid CSV input row structure'` when the compiled validator rejects. -/
def validateCSVInputRowOrThrow (data : JSVal) : Except JsErr Unit :=
  if validateCSVInputRow data then .ok ()
  else .error { cls := .svcValidationError, message := "Invalid CSV input row structure" }

/-- Auxiliary size bound (termination plumbing for the recursive definitions
below): a field looked up in an association list is smaller than the list. -/
def sizeOf_getFromFields (fields : List (String × JSVal)) (key : String) :
    getFromFields fields key = .undefined ∨
      sizeOf (getFromFields fields key) < sizeOf fields := by
  induction fields with
  | nil => exact Or.inl rfl
  | cons kv rest ih =>
    obtain ⟨k, v⟩ := kv
    by_cases h : k = key
    · right
      simp only [getFromFields, h, if_pos]
      simp only [List.cons.sizeOf_spec, Prod.mk.sizeOf_spec]
      omega
    · rcases ih with h0 | hlt
      · left; simpa [getFromFields, h] using h0
      · right
        simp only [getFromFields, h, if_neg, not_false_iff]
        simp only [List.cons.sizeOf_spec, Prod.mk.sizeOf_spec] at *
        omega

/-- Auxiliary size bound (termination plumbing): a property of a value is
smaller than the value. -/
def sizeOf_getProp (v : JSVal) (key : String) :
    v.getProp key = .undefined ∨ sizeOf (v.getProp key) < sizeOf v := by
  cases v with
  | obj fields =>
    rcases sizeOf_getFromFields fields key with h0 | hlt
    · exact Or.inl h0
    · right
      simp only [JSVal.getProp]
      simp only [JSVal.obj.sizeOf_spec]
      omega
  | undefined => exact Or.inl rfl
  | null => exact Or.inl rfl
  | bool b => exact Or.inl rfl
  | num n => exact Or.inl rfl
  | str s => exact Or.inl rfl
  | arr elems => exact Or.inl rfl


mutual

/-- Embeds the recursive validator compiled from `MindMapNodeSchema`
(`src/src/schemas/index.ts`, a TypeBox recursive object
`{id: string, text: string, children?: array of Self}`), under the
`ValidationService` Ajv options.  TypeBox objects do not set
`additionalProperties`, so extra fields are permitted here; `coerceTypes`
lets `id`/`text` be any string-coercible scalar; a present `children` must be
an array (no coercion to arrays) whose every element recursively validates. -/
def ajvValidMindMapNode (v : JSVal) : Bool :=
  match hv : v with
  | .obj _ =>
    (ajvCoerceToString (v.getProp "id")).isSome &&
    (ajvCoerceToString (v.getProp "text")).isSome &&
    (match h : v.getProp "children" with
     | .undefined => true
     | .arr cs => ajvValidNodeList cs
     | _ => false)
  | _ => false
termination_by sizeOf v
decreasing_by
  rcases sizeOf_getProp v "children" with h0 | hlt
  · rw [h] at h0; exact absurd h0 (by simp)
  · rw [h, hv] at hlt
    simp only [JSVal.arr.sizeOf_spec] at hlt
    omega

/-- Validity of every element of a `children` array under
`MindMapNodeSchema`. -/
def ajvValidNodeList (cs : List JSVal) : Bool :=
  match cs with
  | [] => true
  | c :: rest => ajvValidMindMapNode c && ajvValidNodeList rest
termination_by sizeOf cs
decreasing_by
  · simp only [List.cons.sizeOf_spec]; omega
  · simp only [List.cons.sizeOf_spec]; omega

end


/-- Embeds the validator compiled from `MindMapSchema`
(`src/src/schemas/index.ts`): an object whose `id`, `subject`, `topic` and
`createdAt` are (coercible to) strings and whose `root` satisfies
`MindMapNodeSchema`.  Extra properties are permitted (TypeBox objects do not
set `additionalProperties`). -/
def ajvValidMindMap (v : JSVal) : Bool :=
  match v with
  | .obj _ =>
    (ajvCoerceToString (v.getProp "id")).isSome &&
    (ajvCoerceToString (v.getProp "subject")).isSome &&
    (ajvCoerceToString (v.getProp "topic")).isSome &&
    (ajvCoerceToString (v.getProp "createdAt")).isSome &&
    ajvValidMindMapNode (v.getProp "root")
  | _ => false

/-- Embeds `ValidationService.validateMindMapOrThrow`: throws the
`validation.service.ts` `ValidationError` with message
`'Invalid mind map structure'` when the compiled `MindMapSchema` validator
rejects. -/
def validateMindMapOrThrow (data : JSVal) : Except JsErr Unit :=
  if ajvValidMindMap data then .ok ()
  else .error { cls := .svcValidationError, message := "Invalid mind map structure" }

/-! ### Document translation (`OpenAIService.processMindMapNode`) -/

/-- A translated node as built by `OpenAIService.processMindMapNode`.
`crypto.randomUUID()` is modelled by a fresh-id supply: ids are the natural
numbers handed out by a counter threaded through the translation, so two
calls of the supply never return the same id (the defining property of the
UUID generator that the code relies on).  `text` carries the raw value copied
from the source node (`text: node.text`); `children` is `none` when the code
leaves the `children` property unset. -/
inductive GenNode where
  | mk : Nat → JSVal → Option (List GenNode) → GenNode
deriving Repr

/-- Id of a translated node. -/
def GenNode.id : GenNode → Nat
  | .mk i _ _ => i

/-- Text of a translated node. -/
def GenNode.text : GenNode → JSVal
  | .mk _ t _ => t

/-- Children of a translated node (`none` when the property is unset). -/
def GenNode.children : GenNode → Option (List GenNode)
  | .mk _ _ c => c

/-- The filter predicate `(child) => child && typeof child.text === 'string'`
applied to raw children in `OpenAIService.processMindMapNode`
(src/src/services/openai.service.ts, the implementation wired up by the
services plugin). -/
def keepChild (c : JSVal) : Bool :=
  c.truthy && (c.getProp "text").isStr

mutual

/-- Embeds `OpenAIService.processMindMapNode` of
src/src/services/openai.service.ts (the variant registered in the services
plugin; the superseded duplicate in src/unnamed/part_004 is embedded below as
`processMindMapNodeLegacy`): assign the next fresh id, copy `node.text`, and
when `node.children` is an array with at least one element, translate the
children that pass `keepChild` — silently dropping the rest — in order,
threading the id supply; otherwise leave `children` unset. -/
def processMindMapNode (node : JSVal) (ctr : Nat) : GenNode × Nat :=
  match h : node.getProp "children" with
  | .arr cs =>
    if 0 < cs.length then
      let r := processChildren cs (ctr + 1)
      (.mk ctr (node.getProp "text") (some r.1), r.2)
    else
      (.mk ctr (node.getProp "text") none, ctr + 1)
  | _ => (.mk ctr (node.getProp "text") none, ctr + 1)
termination_by (sizeOf node, 0)
decreasing_by
  rcases sizeOf_getProp node "children" with h0 | hlt
  · rw [h] at h0; exact absurd h0 (by simp)
  · rw [h] at hlt
    simp only [JSVal.arr.sizeOf_spec] at hlt
    apply Prod.Lex.left
    omega

/-- Embeds `node.children.filter(keepChild).map(processMindMapNode)` with the
fresh-id supply threaded left to right (children are translated in array
order; a dropped child consumes no ids). -/
def processChildren (cs : List JSVal) (ctr : Nat) : List GenNode × Nat :=
  match cs with
  | [] => ([], ctr)
  | c :: rest =>
    if keepChild c then
      let r := processMindMapNode c ctr
      let rs := processChildren rest r.2
      (r.1 :: rs.1, rs.2)
    else
      processChildren rest ctr
termination_by (sizeOf cs, 1)
decreasing_by
  · apply Prod.Lex.left
    simp only [List.cons.sizeOf_spec]; omega
  · apply Prod.Lex.left
    simp only [List.cons.sizeOf_spec]; omega
  · apply Prod.Lex.left
    simp only [List.cons.sizeOf_spec]; omega

end

/-- Plain state-threaded translation of a list of nodes (no filtering):
`cs.map(processMindMapNode)` with the id supply threaded left to right.  Used
to state that translated children are exactly the translations of the kept
raw children. -/
def translateList (cs : List JSVal) (ctr : Nat) : List GenNode × Nat :=
  match cs with
  | [] => ([], ctr)
  | c :: rest =>
    let r := processMindMapNode c ctr
    let rs := translateList rest r.2
    (r.1 :: rs.1, rs.2)

mutual

/-- Pre-order list of the ids assigned inside a translated node. -/
def GenNode.idList : GenNode → List Nat
  | .mk i _ none => [i]
  | .mk i _ (some children) => i :: idListOf children
termination_by n => sizeOf n
decreasing_by
  all_goals simp only [GenNode.mk.sizeOf_spec, Option.some.sizeOf_spec]; omega

/-- Pre-order list of the ids assigned inside a list of translated nodes. -/
def idListOf : List GenNode → List Nat
  | [] => []
  | n :: rest => n.idList ++ idListOf rest
termination_by ns => sizeOf ns
decreasing_by
  all_goals simp only [List.cons.sizeOf_spec]; omega

end


mutual

/-- Embeds the superseded duplicate `OpenAIService.processMindMapNode` found
in src/unnamed/part_004: identical to the wired implementation except that it
maps over ALL children (`node.children.map(...)`) without the `keepChild`
filter, so no child is dropped. -/
def processMindMapNodeLegacy (node : JSVal) (ctr : Nat) : GenNode × Nat :=
  match h : node.getProp "children" with
  | .arr cs =>
    if 0 < cs.length then
      let r := processChildrenLegacy cs (ctr + 1)
      (.mk ctr (node.getProp "text") (some r.1), r.2)
    else
      (.mk ctr (node.getProp "text") none, ctr + 1)
  | _ => (.mk ctr (node.getProp "text") none, ctr + 1)
termination_by (sizeOf node, 0)
decreasing_by
  rcases sizeOf_getProp node "children" with h0 | hlt
  · rw [h] at h0; exact absurd h0 (by simp)
  · rw [h] at hlt
    simp only [JSVal.arr.sizeOf_spec] at hlt
    apply Prod.Lex.left
    omega

/-- `cs.map(processMindMapNodeLegacy)` with the id supply threaded. -/
def processChildrenLegacy (cs : List JSVal) (ctr : Nat) : List GenNode × Nat :=
  match cs with
  | [] => ([], ctr)
  | c :: rest =>
    let r := processMindMapNodeLegacy c ctr
    let rs := processChildrenLegacy rest r.2
    (r.1 :: rs.1, rs.2)
termination_by (sizeOf cs, 1)
decreasing_by
  · apply Prod.Lex.left
    simp only [List.cons.sizeOf_spec]; omega
  · apply Prod.Lex.left
    simp only [List.cons.sizeOf_spec]; omega

end

/-! ### The retry executor (`p-retry` as configured by `MindMapService`) -/

/-- The retry options record taken by `MindMapService` (the `Options` of
`p-retry`, restricted to the fields the service sets). -/
structure RetryOptions where
  retries : Nat
  factor : Nat
  minTimeout : Nat
  maxTimeout : Nat
  shouldRetry : JsErr → Bool

/-- The default `shouldRetry` of `MindMapService.retryOptions`:
`(error) => !(error instanceof ValidationError)`, where `ValidationError` is
the class imported from `validation.service.js`. -/
def defaultShouldRetry (e : JsErr) : Bool :=
  ! isInstanceOfSvcValidationError e

/-- The default `retryOptions` of the `MindMapService` constructor. -/
def defaultRetryOptions : RetryOptions :=
  { retries := 3
    factor := 2
    minTimeout := 1000
    maxTimeout := 10000
    shouldRetry := defaultShouldRetry }

/-- Embeds the attempt loop of `p-retry` (v6) around a unit of work: attempt
`attemptNumber` runs; on success the pair (attempts made, result) is
returned; on failure, if `shouldRetry error` is false the error is rethrown
immediately, otherwise the loop retries while retries remain.  The attempt
behaviour is a function of the attempt number so that transient failures can
be modelled.  (p-retry consults `shouldRetry` before asking the retry
operation whether retries remain; with no retries left both checks throw the
same error, so the two guard orders agree — the model guards on the
remaining-retry count first to keep the recursion structural.)  Backoff
sleeping affects timing only, not the attempt count or the result, and is
not modelled. -/
def pRetryGo {α : Type} (shouldRetry : JsErr → Bool) (run : Nat → Except JsErr α)
    (attemptNumber : Nat) : Nat → Nat × Except JsErr α
  | 0 =>
    match run attemptNumber with
    | .ok a => (attemptNumber, .ok a)
    | .error e => (attemptNumber, .error e)
  | rl + 1 =>
    match run attemptNumber with
    | .ok a => (attemptNumber, .ok a)
    | .error e =>
      if ! shouldRetry e then (attemptNumber, .error e)
      else pRetryGo shouldRetry run (attemptNumber + 1) rl

/-- `pRetry(run, options)`: first attempt is number 1; at most
`options.retries` retries follow.  Returns (total attempts made, result). -/
def pRetry {α : Type} (options : RetryOptions) (run : Nat → Except JsErr α) :
    Nat × Except JsErr α :=
  pRetryGo options.shouldRetry run 1 options.retries

/-! ### The batch orchestrator (`MindMapService`, `mind-map.service.ts`;
the checkpointed implementation, whose text also appears concatenated in
src/tests/fixtures.ts) -/

/-- Row outcome (`ProcessingResult` of `src/types/index.ts`).  `topic` is a
raw value because `processRow` copies `row.topic || 'Unknown Topic'` from the
untrusted row. -/
structure ProcessingResult where
  topic : JSVal
  status : Bool
  error : Option String
deriving Repr

/-- Behaviour of the collaborators consumed while processing one row:
the result of `pRetry(() => mindMapGenerator.generateMindMap(...))` and the
behaviour of `storageService.storeMindMap` on the generated document. -/
structure RowEnv where
  genResult : Except JsErr JSVal
  storeResult : JSVal → Except JsErr String

/-- `error.message || 'Unknown processing error for this topic'`. -/
def messageOrUnknown (e : JsErr) : String :=
  if e.message = "" then "Unknown processing error for this topic" else e.message

/-- Embeds `MindMapService.processRow`: compute the fallback topic, validate
the row shape (failure gives an immediate Failure outcome), then run the
retried generation, the document validation and the storage write, turning
the first error into a Failure outcome carrying that error's message.  The
function is total: every branch produces an outcome, modelling that
`processRow` never throws. -/
def processRow (env : RowEnv) (row : JSVal) : ProcessingResult :=
  let topic := jsOrStr (row.getProp "topic") "Unknown Topic"
  match validateCSVInputRowOrThrow row with
  | .error ve => { topic := topic, status := false, error := some ve.message }
  | .ok _ =>
    match env.genResult with
    | .error e => { topic := topic, status := false, error := some (messageOrUnknown e) }
    | .ok mindMap =>
      match validateMindMapOrThrow mindMap with
      | .error ve => { topic := topic, status := false, error := some (messageOrUnknown ve) }
      | .ok _ =>
        match env.storeResult mindMap with
        | .error e => { topic := topic, status := false, error := some (messageOrUnknown e) }
        | .ok _ => { topic := topic, status := true, error := none }

/-- Behaviour of the environment for a whole `processMindMaps` run: the
collaborators seen by each row (indexed by the row's position in the input),
the order in which each chunk's concurrent row promises settle (indexed by
chunk number; any permutation of the chunk's positions), and the outcomes of
the checkpoint writes and of the final output write. -/
structure BatchEnv where
  rowEnv : Nat → RowEnv
  completionOrder : Nat → List Nat
  checkpointResult : Nat → Except JsErr Unit
  finalWriteResult : Except JsErr Unit

/-- A CSV write attempted by the orchestrator (checkpoint or final):
target path, rows written, and whether the write succeeded. -/
structure WriteAttempt where
  path : String
  contents : List ProcessingResult
  success : Bool

/-- The checkpoint location built in `MindMapService.processMindMaps`:
`/tmp/output_results.csv.partial.<processedRowCount>` — a constant base name
under `/tmp`; the requested output path does not occur in it. -/
def partialFilePath (processedRowCount : Nat) : String :=
  "/tmp/output_results.csv.partial." ++ toString processedRowCount

/-- Whether an `Except` models a non-throwing call. -/
def isOkB {ε α : Type} : Except ε α → Bool
  | .ok _ => true
  | .error _ => false

/-- Positional reassembly semantics of `Promise.all(batch.map(...))`: each
task writes its outcome into its own slot when it settles (in `order`, the
completion order); the array resolves to the slots in position order once all
have settled.  `task j` is row `j`'s outcome. -/
def promiseAll (n : Nat) (task : Nat → ProcessingResult) (order : List Nat) :
    List ProcessingResult :=
  (order.foldl (fun slots j => slots.set j (some (task j))) (List.replicate n none)).map
    (fun slot => slot.getD { topic := .undefined, status := false, error := none })

/-- Embeds the chunk loop of `MindMapService.processMindMaps`: for each chunk
in order, process its rows concurrently (bounded by the `p-limit` semaphore,
which gates throughput but not results) and collect their outcomes
positionally; append them to the running results; then, when the chunk is
non-empty, attempt the checkpoint write of ALL results so far to
`partialFilePath` — a failed checkpoint is logged and swallowed, so it does
not influence the rest of the run. -/
def runChunks (env : BatchEnv) :
    List (List JSVal) → Nat → Nat → List ProcessingResult → List WriteAttempt →
    List ProcessingResult × List WriteAttempt
  | [], _, _, acc, writes => (acc, writes)
  | chunk :: rest, chunkIdx, processed, acc, writes =>
    let results := promiseAll chunk.length
      (fun j => processRow (env.rowEnv (processed + j)) (chunk.getD j .undefined))
      (env.completionOrder chunkIdx)
    let acc2 := acc ++ results
    let processed2 := processed + chunk.length
    let writes2 :=
      if 0 < chunk.length then
        writes ++ [{ path := partialFilePath processed2, contents := acc2,
                     success := isOkB (env.checkpointResult chunkIdx) }]
      else writes
    runChunks env rest (chunkIdx + 1) processed2 acc2 writes2

/-- Embeds `MindMapService.processMindMaps` after the input CSV has been read
into `rows`: partition into chunks of `batchSize`, run the chunk loop, then
attempt the final write of all results to `outputCsvPath`.  A final-write
failure is rethrown by the surrounding catch (`throw error`), so the result
is that error; on success the in-memory results are returned.  The returned
list of `WriteAttempt`s records every checkpoint write and the final write.
`maxConcurrent` sizes the `p-limit` semaphore, which only constrains how many
rows are simultaneously in flight; outcomes are reassembled positionally, so
the value is never consulted by the result. -/
def processMindMaps (env : BatchEnv) (rows : List JSVal) (maxConcurrent : Nat)
    (batchSize : Nat) (outputCsvPath : String) :
    Except JsErr (List ProcessingResult) × List WriteAttempt :=
  let _ := maxConcurrent
  let r := runChunks env (chunksOf batchSize rows) 0 0 [] []
  match env.finalWriteResult with
  | .ok _ =>
    (.ok r.1, r.2 ++ [{ path := outputCsvPath, contents := r.1, success := true }])
  | .error e =>
    (.error e, r.2 ++ [{ path := outputCsvPath, contents := r.1, success := false }])


/-! ### Spec-side descriptions used to state the orchestrator theorems -/

/-- A settlement order for `n` concurrently running tasks: every task index
settles at some point.  (Permutations of `range n` are the realisable orders;
only coverage is needed for the reassembly argument.) -/
def CoversRange (order : List Nat) (n : Nat) : Prop :=
  ∀ j, j < n → j ∈ order

/-- Number of chunks the partition step produces:
`Math.ceil(n / batchSize)`. -/
def numChunks (batchSize n : Nat) : Nat :=
  (n + batchSize - 1) / batchSize

/-- Length of the `k`-th chunk of an `n`-row input under `batchSize`. -/
def chunkLen (batchSize n k : Nat) : Nat :=
  min batchSize (n - k * batchSize)

/-- The outcome `processRow` produces for row `i` of the input (row `i` sees
the collaborator behaviour `env.rowEnv i`). -/
def rowOutcome (env : BatchEnv) (rows : List JSVal) (i : Nat) : ProcessingResult :=
  processRow (env.rowEnv i) (rows.getD i .undefined)

/-- The report `processMindMaps` assembles: one outcome per input row, in
input order. -/
def reportSpec (env : BatchEnv) (rows : List JSVal) : List ProcessingResult :=
  (List.range rows.length).map (rowOutcome env rows)

/-- The checkpoint write the orchestrator attempts after chunk `k` (counting
rows from the start of the input): cumulative outcomes of the first
`min ((k+1)·batchSize) n` rows, at the fixed `/tmp` partial path. -/
def checkpointSpec (env : BatchEnv) (rows : List JSVal) (batchSize k : Nat) :
    WriteAttempt :=
  { path := partialFilePath (min ((k + 1) * batchSize) rows.length)
    contents := (List.range (min ((k + 1) * batchSize) rows.length)).map
      (rowOutcome env rows)
    success := isOkB (env.checkpointResult k) }

/-! ### Concrete data used by witnesses and counterexamples -/

/-- A well-formed input row. -/
def sampleRow : JSVal :=
  .obj [("subject", .str "Math"), ("topic", .str "Algebra")]

/-- The generic error a mocked generator rejects with in the repository's
retry tests. -/
def serviceUnavailable : JsErr :=
  { cls := .plainError, message := "Service unavailable" }

/-- Row collaborators whose generation always fails. -/
def genFailRowEnv : RowEnv :=
  { genResult := .error serviceUnavailable
    storeResult := fun _ => .ok "stored.json" }

/-- Batch collaborators whose generation always fails, with a single-task
completion order per chunk and the given final-write outcome. -/
def genFailBatchEnv (finalResult : Except JsErr Unit) : BatchEnv :=
  { rowEnv := fun _ => genFailRowEnv
    completionOrder := fun _ => [0]
    checkpointResult := fun _ => .ok ()
    finalWriteResult := finalResult }

/-- The error the CSV writer raises when the final output write fails. -/
def fsWriteError : JsErr :=
  { cls := .fileSystemError
    message := "File system operation write failed for path: out.csv" }


/-- A raw child that passes the translation filter. -/
def keptChildRaw : JSVal := .obj [("text", .str "ok")]

/-- A raw child lacking a string `text` field (dropped by the translation). -/
def droppedChildRaw : JSVal := .obj [("label", .str "no text here")]

/-- A raw node whose children array mixes a kept and a dropped child. -/
def sampleRawNode : JSVal :=
  .obj [("text", .str "Topic"), ("children", .arr [keptChildRaw, droppedChildRaw])]

/-! ## Theorems -/

/-- A non-empty Lean string has positive length. -/
theorem length_pos_of_ne_empty {s : String} (h : s ≠ "") : 1 ≤ s.length := by
  have : s.length ≠ 0 := by
    intro h0
    exact h (by
      cases s with
      | mk data =>
        cases data with
        | nil => rfl
        | cons c cs => simp [String.length, List.length] at h0)
  omega

/-- C9: the storage key is a pure function of the document's subject, topic
and id: two documents agreeing on those three fields receive the same key
(hence storing the same document twice produces the same key both times), and
the local-disk and Google-Cloud-Storage backends derive the identical key. -/
theorem c9_storage_key_pure_function (m1 m2 : MindMapDoc)
    (hs : m1.subject = m2.subject) (ht : m1.topic = m2.topic)
    (hi : m1.id = m2.id) :
    localStorageKey m1 = localStorageKey m2 ∧
    gcsStorageKey m1 = gcsStorageKey m2 ∧
    localStorageKey m1 = gcsStorageKey m1 := by
  unfold localStorageKey gcsStorageKey
  rw [hs, ht, hi]
  exact ⟨rfl, rfl, rfl⟩

/-- Witness for C9 at two concrete documents sharing subject/topic/id but
differing in root and creation time. -/
theorem c9_storage_key_pure_function_witness :
    localStorageKey
        { id := "u1", subject := "My Subject", topic := "A B",
          root := .mk "r" "t" none, createdAt := "2025-04-10T12:00:00.000Z" } =
      localStorageKey
        { id := "u1", subject := "My Subject", topic := "A B",
          root := .mk "r2" "other" (some []), createdAt := "2025-04-11T09:00:00.000Z" } ∧
    localStorageKey
        { id := "u1", subject := "My Subject", topic := "A B",
          root := .mk "r" "t" none, createdAt := "2025-04-10T12:00:00.000Z" } =
      gcsStorageKey
        { id := "u1", subject := "My Subject", topic := "A B",
          root := .mk "r" "t" none, createdAt := "2025-04-10T12:00:00.000Z" } := by
  have h := c9_storage_key_pure_function
    { id := "u1", subject := "My Subject", topic := "A B",
      root := .mk "r" "t" none, createdAt := "2025-04-10T12:00:00.000Z" }
    { id := "u1", subject := "My Subject", topic := "A B",
      root := .mk "r2" "other" (some []), createdAt := "2025-04-11T09:00:00.000Z" }
    rfl rfl rfl
  exact ⟨h.1, h.2.2⟩

/-- C8 counterexample: an object with non-empty string `subject` and `topic`
plus an extra field is ACCEPTED by `validateCSVInputRow` (the Ajv instance is
built with `removeAdditional: true`, so `additionalProperties: false` strips
the extra field instead of failing), and the OrThrow variant does not throw —
contradicting the claim that such objects are rejected. -/
theorem c8_extra_fields_accepted_counterexample :
    validateCSVInputRow
        (.obj [("subject", .str "Math"), ("topic", .str "Algebra"),
               ("extra", .str "x")]) = true ∧
    validateCSVInputRowOrThrow
        (.obj [("subject", .str "Math"), ("topic", .str "Algebra"),
               ("extra", .str "x")]) = .ok () := by
  exact ⟨rfl, rfl⟩

/-- Auxiliary: an extra key is absent from the sanitised field list. -/
theorem getFromFields_sanitize_other (fields : List (String × JSVal)) (k : String)
    (h1 : k ≠ "subject") (h2 : k ≠ "topic") :
    getFromFields (sanitizeCSVFields fields) k = .undefined := by
  induction fields with
  | nil => rfl
  | cons kv rest ih =>
    obtain ⟨key, v⟩ := kv
    by_cases hkey : key = "subject" ∨ key = "topic"
    · have hne : key ≠ k := by
        rcases hkey with h | h <;> (subst h; intro hc; simp_all)
      simp only [sanitizeCSVFields, List.filterMap_cons, if_pos hkey]
      simpa [getFromFields, hne] using ih
    · simpa [sanitizeCSVFields, List.filterMap_cons, if_neg hkey] using ih

/-- Auxiliary: a kept key whose first binding is a string keeps that binding
(string coercion is the identity on strings). -/
theorem getFromFields_sanitize_kept (fields : List (String × JSVal)) (k : String)
    (s : String) (hk : k = "subject" ∨ k = "topic")
    (h : getFromFields fields k = .str s) :
    getFromFields (sanitizeCSVFields fields) k = .str s := by
  induction fields with
  | nil => simp [getFromFields] at h
  | cons kv rest ih =>
    obtain ⟨key, v⟩ := kv
    by_cases hkk : key = k
    · subst hkk
      have hv : v = .str s := by simpa [getFromFields] using h
      subst hv
      simp [sanitizeCSVFields, List.filterMap_cons, if_pos hk, getFromFields,
        ajvCoerceToString]
    · have h' : getFromFields rest k = .str s := by
        simpa [getFromFields, hkk] using h
      by_cases hkey : key = "subject" ∨ key = "topic"
      · simp only [sanitizeCSVFields, List.filterMap_cons, if_pos hkey]
        simpa [getFromFields, hkk] using ih h'
      · simpa [sanitizeCSVFields, List.filterMap_cons, if_neg hkey] using ih h'

/-- C8 as amended: an object with non-empty string `subject` and `topic` and
at least one extra field is accepted, the OrThrow variant returns normally,
and the validator's `removeAdditional` mutation silently strips the extra
fields while keeping `subject` and `topic`. -/
theorem c8_extra_fields_stripped_and_accepted (fields : List (String × JSVal))
    (s t : String)
    (hs : getFromFields fields "subject" = .str s) (hs1 : s ≠ "")
    (ht : getFromFields fields "topic" = .str t) (ht1 : t ≠ "")
    (hextra : ∃ kv ∈ fields, kv.1 ≠ "subject" ∧ kv.1 ≠ "topic") :
    validateCSVInputRow (.obj fields) = true ∧
    validateCSVInputRowOrThrow (.obj fields) = .ok () ∧
    (∀ k, k ≠ "subject" → k ≠ "topic" →
      getFromFields (sanitizeCSVFields fields) k = .undefined) ∧
    getFromFields (sanitizeCSVFields fields) "subject" = .str s ∧
    getFromFields (sanitizeCSVFields fields) "topic" = .str t := by
  have hvalid : validateCSVInputRow (.obj fields) = true := by
    simp only [validateCSVInputRow, hs, ht, coercesToNonEmptyString,
      ajvCoerceToString, Bool.and_eq_true, decide_eq_true_eq]
    exact ⟨length_pos_of_ne_empty hs1, length_pos_of_ne_empty ht1⟩
  refine ⟨hvalid, ?_, ?_, ?_, ?_⟩
  · simp [validateCSVInputRowOrThrow, hvalid]
  · intro k h1 h2
    exact getFromFields_sanitize_other fields k h1 h2
  · exact getFromFields_sanitize_kept fields "subject" s (Or.inl rfl) hs
  · exact getFromFields_sanitize_kept fields "topic" t (Or.inr rfl) ht

/-- Witness for the amended C8 at the concrete extra-field row. -/
theorem c8_extra_fields_stripped_and_accepted_witness :
    validateCSVInputRow
        (.obj [("subject", .str "Math"), ("topic", .str "Algebra"),
               ("extra", .str "x")]) = true ∧
    getFromFields
        (sanitizeCSVFields [("subject", .str "Math"), ("topic", .str "Algebra"),
                            ("extra", .str "x")]) "extra" = .undefined := by
  have h := c8_extra_fields_stripped_and_accepted
    [("subject", .str "Math"), ("topic", .str "Algebra"), ("extra", .str "x")]
    "Math" "Algebra" rfl (by decide) rfl (by decide)
    ⟨("extra", .str "x"), by simp, by decide, by decide⟩
  exact ⟨h.1, h.2.2.1 "extra" (by decide) (by decide)⟩

/-- C2: the default `shouldRetry` of `MindMapService` is meant to suppress
retries for validation-class generation failures, but it tests
`instanceof ValidationError` against the `validation.service.ts` class while
the text-generation adapter throws the unrelated `errors/error-types.ts`
`ValidationError`.  Consequently `shouldRetry` answers `true` for an adapter
validation error and the executor makes `retries + 1 = 4` attempts instead
of the claimed single attempt.  (The third conjunct shows the predicate does
suppress retries for the class it actually names, demonstrating the
class-identity slip.) -/
theorem c2_validation_errors_are_retried :
    defaultShouldRetry
        { cls := .etValidationError,
          message := "No valid JSON structure found in OpenAI response" } = true ∧
    (pRetry defaultRetryOptions (fun _ =>
      (.error { cls := .etValidationError,
                message := "No valid JSON structure found in OpenAI response" } :
        Except JsErr JSVal))).1 = 4 ∧
    (pRetry defaultRetryOptions (fun _ =>
      (.error { cls := .svcValidationError,
                message := "Invalid mind map structure" } :
        Except JsErr JSVal))).1 = 1 := by
  exact ⟨rfl, rfl, rfl⟩


/-- C10 counterexample: the empty string does not parse as a non-negative
integer, yet the listing emits NO warning for it (the `if (pageToken)` guard
treats the falsy empty token exactly like an absent one) — contradicting the
claim that every non-parsing token is warned about.  The response itself is
still the first page. -/
theorem c10_empty_token_no_warning_counterexample :
    parsesAsNonnegInt "" = false ∧
    (getAllMindMapsLocal (some []) (some "") 100).2 = [] ∧
    (getAllMindMapsLocal (some []) (some "") 100).1 =
      (getAllMindMapsLocal (some []) none 100).1 := by
  exact ⟨rfl, rfl, rfl⟩

/-- C10 as amended: for every pageToken that does not parse (via
`parseInt(_, 10)`) as a non-negative integer, the listing does not fail: it
falls back to offset 0 and returns a page identical to a call with no
pageToken; for every such NON-EMPTY token a warning is also logged (the empty
token is falsy and is treated as absent, without a warning). -/
theorem c10_invalid_token_first_page
    (dir : Option (List (String × Option MindMapDoc))) (tok : String) (limit : Nat)
    (hbad : parsesAsNonnegInt tok = false) :
    (getAllMindMapsLocal dir (some tok) limit).1 =
      (getAllMindMapsLocal dir none limit).1 ∧
    (tok ≠ "" → (getAllMindMapsLocal dir (some tok) limit).2 =
      invalidTokenWarning tok :: (getAllMindMapsLocal dir none limit).2) := by
  have hoff : localListOffset (some tok) =
      (0, if tok = "" then [] else [invalidTokenWarning tok]) := by
    by_cases he : tok = ""
    · simp [localListOffset, he]
    · simp only [localListOffset, if_neg he]
      unfold parsesAsNonnegInt at hbad
      cases hp : jsParseInt10 tok with
      | none => simp [he]
      | some v =>
        rw [hp] at hbad
        simp only [decide_eq_false_iff_not, not_le] at hbad
        simp [he, not_le.mpr hbad]
  have hnone : localListOffset none = (0, []) := rfl
  constructor
  · cases dir with
    | none => simp [getAllMindMapsLocal, hoff, hnone]
    | some entries => simp [getAllMindMapsLocal, hoff, hnone]
  · intro he
    rw [if_neg he] at hoff
    cases dir with
    | none => simp [getAllMindMapsLocal, hoff, hnone]
    | some entries => simp [getAllMindMapsLocal, hoff, hnone]

/-- Witness for the amended C10 at the unparsable token `"abc"` against a
two-file directory. -/
theorem c10_invalid_token_first_page_witness :
    (getAllMindMapsLocal (some [("a.json", none), ("b.txt", none)])
        (some "abc") 100).1 =
      (getAllMindMapsLocal (some [("a.json", none), ("b.txt", none)])
        none 100).1 ∧
    (getAllMindMapsLocal (some [("a.json", none), ("b.txt", none)])
        (some "abc") 100).2 =
      invalidTokenWarning "abc" ::
        (getAllMindMapsLocal (some [("a.json", none), ("b.txt", none)])
          none 100).2 := by
  have h := c10_invalid_token_first_page
    (some [("a.json", none), ("b.txt", none)]) "abc" 100 (by decide)
  exact ⟨h.1, h.2 (by decide)⟩

/-- The partition of an empty row list is empty. -/
theorem chunksOf_nil (bs : Nat) : chunksOf bs [] = [] := by
  unfold chunksOf
  cases bs with
  | zero => rfl
  | succ b =>
    have h : b / (b + 1) = 0 := Nat.div_eq_of_lt (Nat.lt_succ_self b)
    simp [h]

/-- Recursive characterisation of the chunk partition: a non-empty input
splits into its first `batchSize` rows followed by the partition of the
rest. -/
theorem chunksOf_cons (bs : Nat) (rows : List JSVal) (hbs : 1 ≤ bs)
    (hne : rows ≠ []) :
    chunksOf bs rows = rows.take bs :: chunksOf bs (rows.drop bs) := by
  have hbs0 : 0 < bs := hbs
  have hn : 1 ≤ rows.length := List.length_pos.mpr hne
  have hsplit : (rows.length + bs - 1) / bs =
      ((rows.drop bs).length + bs - 1) / bs + 1 := by
    rw [List.length_drop]
    rcases le_or_lt bs rows.length with hge | hlt
    · have h1 : rows.length + bs - 1 = (rows.length - bs + bs - 1) + bs := by
        omega
      rw [h1, Nat.add_div_right _ hbs0]
    · have h1 : rows.length + bs - 1 = (rows.length - 1) + bs := by omega
      rw [h1, Nat.add_div_right _ hbs0]
      have l2 : (rows.length - 1) / bs = 0 := Nat.div_eq_of_lt (by omega)
      have l3 : rows.length - bs = 0 := by omega
      rw [l2, l3]
      have l4 : (0 + bs - 1) / bs = 0 := Nat.div_eq_of_lt (by omega)
      rw [l4]
  unfold chunksOf
  rw [hsplit, List.range_succ_eq_map]
  simp only [List.map_cons, Nat.zero_mul, List.drop_zero, List.map_map]
  congr 1
  apply List.map_congr_left
  intro i _
  simp only [Function.comp_apply]
  rw [List.drop_drop, Nat.succ_mul, Nat.add_comm (i * bs) bs]

/-- The chunks concatenate back to the input. -/
theorem chunksOf_flatten (bs : Nat) (hbs : 1 ≤ bs) :
    ∀ rows : List JSVal, (chunksOf bs rows).flatten = rows := by
  intro rows
  generalize hn : rows.length = n
  induction n using Nat.strong_induction_on generalizing rows with
  | _ n ih =>
    cases hr : rows with
    | nil => simp [chunksOf_nil]
    | cons a as =>
      subst hr
      have hpos : 1 ≤ n := by
        rw [← hn]
        simp
      rw [chunksOf_cons bs _ hbs (by simp)]
      have hlt : (List.drop bs (a :: as)).length < n := by
        rw [List.length_drop, hn]
        omega
      rw [List.flatten_cons, ih _ (by omega) _ rfl]
      exact List.take_append_drop bs (a :: as)

/-- C7 counterexample: with 150 input rows and no explicit `batchSize`, the
partition produces TWO chunks, not one: the parameter default is
`batchSize = 100`, not "one chunk containing everything". -/
theorem c7_default_single_chunk_counterexample :
    (chunksOf defaultBatchSize (List.replicate 150 sampleRow)).length = 2 := by
  simp [chunksOf, defaultBatchSize]

/-- C7 as amended: the default `batchSize` is 100, so the partition under the
default produces `ceil(n / 100)` chunks that concatenate to the input, and a
single chunk containing every input row exactly when `1 ≤ n ≤ 100`. -/
theorem c7_default_batchsize_100_chunking (rows : List JSVal) :
    (chunksOf defaultBatchSize rows).length = numChunks defaultBatchSize rows.length ∧
    (chunksOf defaultBatchSize rows).flatten = rows ∧
    (1 ≤ rows.length → rows.length ≤ 100 →
      chunksOf defaultBatchSize rows = [rows]) := by
  refine ⟨by simp [chunksOf, numChunks], chunksOf_flatten _ (by decide) rows, ?_⟩
  intro h1 h100
  rw [chunksOf_cons _ _ (by decide) (by intro h; rw [h] at h1; simp at h1)]
  have hd : rows.drop defaultBatchSize = [] := by
    apply List.drop_eq_nil_of_le
    simpa [defaultBatchSize] using h100
  rw [hd, chunksOf_nil]
  congr 1
  apply List.take_of_length_le
  simpa [defaultBatchSize] using h100

/-- Witness for the amended C7 at a single-row input. -/
theorem c7_default_batchsize_100_chunking_witness :
    chunksOf defaultBatchSize [sampleRow] = [[sampleRow]] :=
  (c7_default_batchsize_100_chunking [sampleRow]).2.2 (by decide) (by decide)



/-- Equation lemma: translation of a node whose `children` property is a
non-empty array. -/
theorem processMindMapNode_eq_arr (node : JSVal) (cs : List JSVal) (ctr : Nat)
    (h : node.getProp "children" = .arr cs) (hlen : 0 < cs.length) :
    processMindMapNode node ctr =
      (.mk ctr (node.getProp "text") (some ((processChildren cs (ctr + 1)).1)),
       (processChildren cs (ctr + 1)).2) := by
  unfold processMindMapNode
  split
  next cs2 heq =>
    rw [h] at heq
    injection heq with e
    subst e
    rw [if_pos hlen]
  next hno => exact (hno cs h).elim

/-- Equation lemma: translation of a node whose `children` property is the
empty array. -/
theorem processMindMapNode_eq_emptyArr (node : JSVal) (ctr : Nat)
    (h : node.getProp "children" = .arr []) :
    processMindMapNode node ctr =
      (.mk ctr (node.getProp "text") none, ctr + 1) := by
  unfold processMindMapNode
  split
  next cs2 heq =>
    rw [h] at heq
    injection heq with e
    subst e
    rw [if_neg (by simp)]
  next hno => rfl

/-- Equation lemma: translation of a node whose `children` property is not an
array. -/
theorem processMindMapNode_eq_other (node : JSVal) (ctr : Nat)
    (h : ∀ cs, node.getProp "children" ≠ .arr cs) :
    processMindMapNode node ctr =
      (.mk ctr (node.getProp "text") none, ctr + 1) := by
  unfold processMindMapNode
  split
  next cs2 heq => exact absurd heq (h cs2)
  next hno => rfl

/-- Equation lemma: the child loop on an empty list. -/
theorem processChildren_nil (ctr : Nat) : processChildren [] ctr = ([], ctr) := by
  unfold processChildren
  rfl

/-- Equation lemma: the child loop keeps a child passing the filter. -/
theorem processChildren_cons_keep (c : JSVal) (rest : List JSVal) (ctr : Nat)
    (hk : keepChild c = true) :
    processChildren (c :: rest) ctr =
      ((processMindMapNode c ctr).1 ::
         (processChildren rest (processMindMapNode c ctr).2).1,
       (processChildren rest (processMindMapNode c ctr).2).2) := by
  conv_lhs => unfold processChildren
  simp [hk]

/-- Equation lemma: the child loop drops a child failing the filter. -/
theorem processChildren_cons_drop (c : JSVal) (rest : List JSVal) (ctr : Nat)
    (hk : keepChild c = false) :
    processChildren (c :: rest) ctr = processChildren rest ctr := by
  conv_lhs => unfold processChildren
  simp [hk]

/-- Equation lemma: pre-order ids of a childless translated node. -/
theorem idList_mk_none (i : Nat) (t : JSVal) :
    (GenNode.mk i t none).idList = [i] := by
  unfold GenNode.idList
  rfl

/-- Equation lemma: pre-order ids of a translated node with children. -/
theorem idList_mk_some (i : Nat) (t : JSVal) (children : List GenNode) :
    (GenNode.mk i t (some children)).idList = i :: idListOf children := by
  unfold GenNode.idList
  rfl

/-- Equation lemma: ids of an empty node list. -/
theorem idListOf_nil : idListOf [] = [] := by
  unfold idListOf
  rfl

/-- Equation lemma: ids of a non-empty node list. -/
theorem idListOf_cons (n : GenNode) (rest : List GenNode) :
    idListOf (n :: rest) = n.idList ++ idListOf rest := by
  conv_lhs => unfold idListOf


/-- The translation filter keeps exactly the children with a string `text`
field: a value with a string `text` property is necessarily an object, hence
truthy, so the truthiness guard adds nothing. -/
theorem keepChild_eq_isStr (c : JSVal) :
    keepChild c = (c.getProp "text").isStr := by
  cases c <;> simp [keepChild, JSVal.truthy, JSVal.getProp, JSVal.isStr]

/-- The translated `text` is always the raw node's `text` property. -/
theorem processMindMapNode_text (node : JSVal) (ctr : Nat) :
    ((processMindMapNode node ctr).1).text = node.getProp "text" := by
  cases hc : node.getProp "children"
  case arr cs =>
    rcases Nat.eq_zero_or_pos cs.length with h0 | hpos
    · rw [processMindMapNode_eq_emptyArr node ctr
        (by rw [hc, List.length_eq_zero.mp h0])]
      rfl
    · rw [processMindMapNode_eq_arr node cs ctr hc hpos]
      rfl
  all_goals
    rw [processMindMapNode_eq_other node ctr
      (fun cs hcc => by rw [hc] at hcc; exact JSVal.noConfusion hcc)]
    rfl

/-- The interleaved filter-and-translate loop equals filtering first and then
translating (both thread the id supply only through kept children). -/
theorem processChildren_eq_translateList (cs : List JSVal) (ctr : Nat) :
    processChildren cs ctr = translateList (cs.filter keepChild) ctr := by
  induction cs generalizing ctr with
  | nil => rw [processChildren_nil]; rfl
  | cons c rest ih =>
    cases hk : keepChild c with
    | true =>
      rw [processChildren_cons_keep c rest ctr hk, List.filter_cons_of_pos hk]
      simp only [translateList]
      rw [ih]
    | false =>
      rw [processChildren_cons_drop c rest ctr hk, List.filter_cons_of_neg
        (by simp [hk]), ih]

/-- Translated children carry exactly the raw texts, in order. -/
theorem translateList_map_text (cs : List JSVal) (ctr : Nat) :
    ((translateList cs ctr).1).map GenNode.text =
      cs.map (fun c => c.getProp "text") := by
  induction cs generalizing ctr with
  | nil => simp [translateList]
  | cons c rest ih =>
    simp [translateList, processMindMapNode_text, ih]

/-- Two adjacent id ranges glue into one. -/
theorem range'_glue (a b c : Nat) (h1 : a ≤ b) (h2 : b ≤ c) :
    List.range' a (b - a) ++ List.range' b (c - b) = List.range' a (c - a) := by
  obtain ⟨m1, rfl⟩ : ∃ m1, b = a + m1 := ⟨b - a, by omega⟩
  obtain ⟨m2, rfl⟩ : ∃ m2, c = a + m1 + m2 := ⟨c - (a + m1), by omega⟩
  have e1 : a + m1 - a = m1 := by omega
  have e2 : a + m1 + m2 - (a + m1) = m2 := by omega
  have e3 : a + m1 + m2 - a = m1 + m2 := by omega
  rw [e1, e2, e3, List.range'_append_1, Nat.add_comm]

/-- Fresh-id bookkeeping: a translation started at counter `ctr` assigns, in
pre-order, exactly the ids `ctr, ctr+1, …` up to the returned counter
(excluded) — so every id is freshly generated and all ids are pairwise
distinct — and the counter strictly advances on a node (weakly on a list). -/
theorem translation_ids_spec (N : Nat) :
    (∀ node ctr, sizeOf node ≤ N →
      ((processMindMapNode node ctr).1).idList =
        List.range' ctr ((processMindMapNode node ctr).2 - ctr) ∧
      ctr < (processMindMapNode node ctr).2) ∧
    (∀ cs ctr, sizeOf (cs : List JSVal) ≤ N →
      idListOf ((processChildren cs ctr).1) =
        List.range' ctr ((processChildren cs ctr).2 - ctr) ∧
      ctr ≤ (processChildren cs ctr).2) := by
  induction N using Nat.strong_induction_on with
  | _ N ih =>
    constructor
    · intro node ctr hsz
      cases hc : node.getProp "children"
      case arr cs =>
        rcases Nat.eq_zero_or_pos cs.length with h0 | hpos
        · rw [processMindMapNode_eq_emptyArr node ctr
            (by rw [hc, List.length_eq_zero.mp h0])]
          have e1 : ctr + 1 - ctr = 1 := by omega
          rw [idList_mk_none, e1, List.range'_one]
          exact ⟨rfl, by omega⟩
        · have hcs : sizeOf cs < sizeOf node := by
            rcases sizeOf_getProp node "children" with h0 | hlt
            · rw [hc] at h0; exact absurd h0 (by simp)
            · rw [hc] at hlt
              simp only [JSVal.arr.sizeOf_spec] at hlt
              omega
          obtain ⟨h1, h2⟩ := (ih (N - 1) (by omega)).2 cs (ctr + 1) (by omega)
          rw [processMindMapNode_eq_arr node cs ctr hc hpos]
          rw [idList_mk_some, h1]
          have e1 : (processChildren cs (ctr + 1)).2 - ctr =
              ((processChildren cs (ctr + 1)).2 - (ctr + 1)) + 1 := by omega
          rw [e1, List.range'_succ]
          exact ⟨rfl, by omega⟩
      all_goals
        rw [processMindMapNode_eq_other node ctr
          (fun cs hcc => by rw [hc] at hcc; exact JSVal.noConfusion hcc)]
        rw [idList_mk_none]
        have e1 : ctr + 1 - ctr = 1 := by omega
        rw [e1, List.range'_one]
        exact ⟨rfl, by omega⟩
    · intro cs ctr hsz
      cases cs with
      | nil =>
        rw [processChildren_nil]
        have e0 : ctr - ctr = 0 := by omega
        rw [idListOf_nil, e0, List.range'_zero]
        exact ⟨rfl, le_refl ctr⟩
      | cons c rest =>
        have hszc : sizeOf c < N := by
          simp only [List.cons.sizeOf_spec] at hsz
          omega
        have hszr : sizeOf rest < N := by
          simp only [List.cons.sizeOf_spec] at hsz
          omega
        cases hk : keepChild c with
        | true =>
          obtain ⟨hc1, hc2⟩ := (ih (N - 1) (by omega)).1 c ctr (by omega)
          obtain ⟨hr1, hr2⟩ :=
            (ih (N - 1) (by omega)).2 rest (processMindMapNode c ctr).2 (by omega)
          rw [processChildren_cons_keep c rest ctr hk]
          rw [idListOf_cons, hc1, hr1]
          exact ⟨range'_glue ctr (processMindMapNode c ctr).2
            (processChildren rest (processMindMapNode c ctr).2).2
            (by omega) hr2, by omega⟩
        | false =>
          rw [processChildren_cons_drop c rest ctr hk]
          exact (ih (N - 1) (by omega)).2 rest ctr (by omega)

/-- C5: when a raw node's `children` is a non-empty array, the translation
keeps exactly the children having a string `text` field (any other entry is
silently dropped), translates them in order with the text copied, and
assigns fresh pairwise-distinct ids (the pre-order ids are the consecutive
counter values handed out by the id supply). -/
theorem c5_translation_drops_textless_children (node : JSVal) (cs : List JSVal)
    (ctr : Nat) (hc : node.getProp "children" = .arr cs) (hlen : 0 < cs.length) :
    processMindMapNode node ctr =
      (.mk ctr (node.getProp "text")
        (some ((translateList (cs.filter (fun c => (c.getProp "text").isStr))
          (ctr + 1)).1)),
       (translateList (cs.filter (fun c => (c.getProp "text").isStr)) (ctr + 1)).2) ∧
    ((translateList (cs.filter (fun c => (c.getProp "text").isStr)) (ctr + 1)).1).map
        GenNode.text =
      (cs.filter (fun c => (c.getProp "text").isStr)).map
        (fun c => c.getProp "text") ∧
    ((processMindMapNode node ctr).1).idList =
      List.range' ctr ((processMindMapNode node ctr).2 - ctr) := by
  have hfilter : cs.filter keepChild =
      cs.filter (fun c => (c.getProp "text").isStr) := by
    apply List.filter_congr
    intro c _
    exact keepChild_eq_isStr c
  refine ⟨?_, translateList_map_text _ _, ?_⟩
  · rw [processMindMapNode_eq_arr node cs ctr hc hlen,
      processChildren_eq_translateList, hfilter]
  · exact ((translation_ids_spec (sizeOf node)).1 node ctr (le_refl _)).1

/-- Witness for C5 at a concrete node with one kept and one dropped child. -/
theorem c5_translation_drops_textless_children_witness :
    processMindMapNode sampleRawNode 0 =
      (.mk 0 (sampleRawNode.getProp "text")
        (some ((translateList
          ([keptChildRaw, droppedChildRaw].filter
            (fun c => (c.getProp "text").isStr)) 1).1)),
       (translateList
          ([keptChildRaw, droppedChildRaw].filter
            (fun c => (c.getProp "text").isStr)) 1).2) ∧
    ((processMindMapNode sampleRawNode 0).1).idList =
      List.range' 0 ((processMindMapNode sampleRawNode 0).2 - 0) ∧
    [keptChildRaw, droppedChildRaw].filter (fun c => (c.getProp "text").isStr) =
      [keptChildRaw] := by
  have h := c5_translation_drops_textless_children sampleRawNode
    [keptChildRaw, droppedChildRaw] 0 rfl (by decide)
  exact ⟨h.1, h.2.2, rfl⟩


/-- Settling tasks does not change the number of slots. -/
theorem foldl_set_length (task : Nat → ProcessingResult) (order : List Nat) :
    ∀ slots : List (Option ProcessingResult),
      (order.foldl (fun s j => s.set j (some (task j))) slots).length =
        slots.length := by
  induction order with
  | nil => intro slots; rfl
  | cons i rest ih =>
    intro slots
    simp only [List.foldl_cons]
    rw [ih, List.length_set]

/-- A slot whose index never settles keeps its value. -/
theorem foldl_set_not_mem (task : Nat → ProcessingResult) (order : List Nat) :
    ∀ (slots : List (Option ProcessingResult)) (j : Nat), j ∉ order →
      (order.foldl (fun s j => s.set j (some (task j))) slots)[j]? =
        slots[j]? := by
  induction order with
  | nil => intro slots j _; rfl
  | cons i rest ih =>
    intro slots j hj
    simp only [List.foldl_cons]
    rw [ih _ j (fun h => hj (List.mem_cons_of_mem i h)),
      List.getElem?_set_ne (fun h => hj (by rw [← h]; exact List.mem_cons_self i rest))]

/-- A slot whose index settles at least once holds that task's outcome at the
end. -/
theorem foldl_set_mem (task : Nat → ProcessingResult) (order : List Nat) :
    ∀ (slots : List (Option ProcessingResult)) (j : Nat), j ∈ order →
      j < slots.length →
      (order.foldl (fun s j => s.set j (some (task j))) slots)[j]? =
        some (some (task j)) := by
  induction order with
  | nil => intro slots j hj; cases hj
  | cons i rest ih =>
    intro slots j hj hlt
    simp only [List.foldl_cons]
    by_cases hjr : j ∈ rest
    · exact ih _ j hjr (by rw [List.length_set]; exact hlt)
    · have hji : j = i := by
        rcases List.mem_cons.mp hj with h | h
        · exact h
        · exact absurd h hjr
      subst hji
      rw [foldl_set_not_mem task rest _ j hjr,
        List.getElem?_set_self hlt]

/-- `Promise.all` reassembly: whatever the completion order (it only needs to
settle every task), the resolved array is the tasks' outcomes in position
order. -/
theorem promiseAll_eq (n : Nat) (task : Nat → ProcessingResult)
    (order : List Nat) (h : CoversRange order n) :
    promiseAll n task order = (List.range n).map task := by
  apply List.ext_getElem?
  intro j
  unfold promiseAll
  by_cases hj : j < n
  · rw [List.getElem?_map,
      foldl_set_mem task order _ j (h j hj) (by rw [List.length_replicate]; exact hj),
      List.getElem?_map, List.getElem?_range hj]
    rfl
  · rw [List.getElem?_eq_none, List.getElem?_eq_none]
    · rw [List.length_map, List.length_range]; omega
    · rw [List.length_map, foldl_set_length, List.length_replicate]; omega

/-- Splitting a mapped index range. -/
theorem map_range_split {α : Type} (f : Nat → α) (a b : Nat) :
    (List.range (a + b)).map f =
      (List.range a).map f ++ (List.range b).map (fun i => f (a + i)) := by
  rw [List.range_add, List.map_append, List.map_map]
  rfl


/-- No rows, no chunks. -/
theorem numChunks_zero (bs : Nat) (hbs : 1 ≤ bs) : numChunks bs 0 = 0 := by
  unfold numChunks
  exact Nat.div_eq_of_lt (by omega)

/-- Peeling one chunk off a non-empty input. -/
theorem numChunks_succ (bs n : Nat) (hbs : 1 ≤ bs) (hn : 1 ≤ n) :
    numChunks bs n = numChunks bs (n - bs) + 1 := by
  unfold numChunks
  rcases le_or_lt bs n with hge | hlt
  · have h1 : n + bs - 1 = (n - bs + bs - 1) + bs := by omega
    rw [h1, Nat.add_div_right _ hbs]
  · have h1 : n + bs - 1 = (n - 1) + bs := by omega
    rw [h1, Nat.add_div_right _ hbs]
    have l2 : (n - 1) / bs = 0 := Nat.div_eq_of_lt (by omega)
    have l3 : n - bs = 0 := by omega
    rw [l2, l3]
    have l4 : (0 + bs - 1) / bs = 0 := Nat.div_eq_of_lt (by omega)
    rw [l4]

/-- Characterisation of the whole chunk loop: starting at chunk index `c`,
processed-row count `p`, accumulated results `acc` and recorded writes
`writes`, the loop returns `acc` extended with one outcome per row in input
order, and `writes` extended with one cumulative checkpoint attempt per
chunk at the fixed `/tmp` partial path — provided every chunk's completion
order settles all of its rows. -/
theorem runChunks_spec (bs : Nat) (hbs : 1 ≤ bs) :
    ∀ (rows : List JSVal) (env : BatchEnv) (c p : Nat)
      (acc : List ProcessingResult) (writes : List WriteAttempt),
      (∀ k, CoversRange (env.completionOrder (c + k)) (chunkLen bs rows.length k)) →
      runChunks env (chunksOf bs rows) c p acc writes =
        (acc ++ (List.range rows.length).map
            (fun i => processRow (env.rowEnv (p + i)) (rows.getD i .undefined)),
         writes ++ (List.range (numChunks bs rows.length)).map
            (fun k =>
              { path := partialFilePath (p + min ((k + 1) * bs) rows.length)
                contents := acc ++ (List.range (min ((k + 1) * bs) rows.length)).map
                  (fun i => processRow (env.rowEnv (p + i)) (rows.getD i .undefined))
                success := isOkB (env.checkpointResult (c + k)) })) := by
  intro rows
  generalize hn : rows.length = n
  induction n using Nat.strong_induction_on generalizing rows with
  | _ n ih =>
    intro env c p acc writes hcov
    rcases Nat.eq_zero_or_pos n with h0 | hn1
    · subst h0
      have hnil : rows = [] := List.length_eq_zero.mp hn
      subst hnil
      rw [chunksOf_nil]
      simp [runChunks, numChunks_zero bs hbs]
    · have hne : rows ≠ [] := by
        intro h
        rw [h] at hn
        simp at hn
        omega
      rw [chunksOf_cons bs rows hbs hne]
      simp only [runChunks]
      have hlen1 : (rows.take bs).length = min bs n := by
        rw [List.length_take, hn]
      have hpos : 0 < (rows.take bs).length := by
        rw [hlen1]; omega
      rw [if_pos hpos]
      have hcov0 : CoversRange (env.completionOrder c) ((rows.take bs).length) := by
        have h0 := hcov 0
        simp only [chunkLen, Nat.zero_mul, Nat.sub_zero, Nat.add_zero] at h0
        rw [hlen1]
        exact h0
      rw [promiseAll_eq _ _ _ hcov0]
      have htask : (List.range (rows.take bs).length).map
            (fun j => processRow (env.rowEnv (p + j)) ((rows.take bs).getD j .undefined)) =
          (List.range (min bs n)).map
            (fun j => processRow (env.rowEnv (p + j)) (rows.getD j .undefined)) := by
        rw [hlen1]
        apply List.map_congr_left
        intro j hj
        rw [List.mem_range] at hj
        rw [List.getD_eq_getElem?_getD, List.getD_eq_getElem?_getD,
          List.getElem?_take_of_lt (by omega)]
      rw [htask]
      have hlt : (rows.drop bs).length < n := by
        rw [List.length_drop, hn]; omega
      have hcov2 : ∀ k, CoversRange (env.completionOrder (c + 1 + k))
          (chunkLen bs (rows.drop bs).length k) := by
        intro k
        have hk := hcov (k + 1)
        have e1 : c + (k + 1) = c + 1 + k := by omega
        have e2 : chunkLen bs n (k + 1) = chunkLen bs (rows.drop bs).length k := by
          unfold chunkLen
          rw [List.length_drop, hn, Nat.succ_mul, Nat.add_comm (k * bs) bs,
            ← Nat.sub_sub]
        rw [e1, e2] at hk
        exact hk
      rw [ih _ hlt _ rfl env (c + 1) (p + (rows.take bs).length) _ _ hcov2]
      -- shared splitting fact for the per-row outcome maps
      have hdropD : ∀ i, (rows.drop bs).getD i JSVal.undefined = rows.getD (bs + i) .undefined := by
        intro i
        rw [List.getD_eq_getElem?_getD, List.getD_eq_getElem?_getD,
          List.getElem?_drop]
      have hsplit_map : ∀ m, m ≤ n - bs →
          (List.range (min bs n + m)).map
              (fun i => processRow (env.rowEnv (p + i)) (rows.getD i .undefined)) =
            (List.range (min bs n)).map
              (fun i => processRow (env.rowEnv (p + i)) (rows.getD i .undefined)) ++
            (List.range m).map
              (fun i => processRow (env.rowEnv (p + min bs n + i))
                ((rows.drop bs).getD i .undefined)) := by
        intro m hm
        rw [map_range_split]
        congr 1
        apply List.map_congr_left
        intro i hi
        rw [List.mem_range] at hi
        have hbn : min bs n = bs := by omega
        rw [hdropD i, hbn]
        have e3 : p + (bs + i) = p + bs + i := by omega
        rw [e3]
      rw [List.length_drop, hn]
      simp only [hlen1]
      refine Prod.ext ?_ ?_
      · -- the report component
        simp only
        rw [List.append_assoc]
        congr 1
        have esum : min bs n + (n - bs) = n := by omega
        have h1 := hsplit_map (n - bs) (le_refl _)
        rw [esum] at h1
        exact h1.symm
      · -- the write-attempt component
        simp only
        rw [numChunks_succ bs n hbs hn1, List.range_succ_eq_map,
          List.map_cons, List.map_map, List.append_assoc, List.singleton_append]
        congr 1
        simp only [List.cons.injEq]
        constructor
        · simp
        · apply List.map_congr_left
          intro a ha
          rw [List.mem_range] at ha
          simp only [Function.comp_apply, WriteAttempt.mk.injEq,
            Nat.succ_eq_add_one]
          have eA : (a + 1 + 1) * bs = (a + 1) * bs + bs := Nat.succ_mul (a + 1) bs
          have emin : min bs n + min ((a + 1) * bs) (n - bs) =
              min ((a + 1) * bs + bs) n := by
            omega
          have h2 := hsplit_map (min ((a + 1) * bs) (n - bs)) (min_le_right _ _)
          rw [emin] at h2
          refine ⟨?_, ?_, ?_⟩
          · congr 1
            rw [eA]
            omega
          · rw [eA, h2, List.append_assoc]
          · have ec : c + 1 + a = c + (a + 1) := by omega
            rw [ec]


/-- Full characterisation of a `processMindMaps` run: the first component is
the report (or the rethrown final-write error), the second the write
attempts — one cumulative checkpoint per chunk at the fixed `/tmp` partial
path, then the final write to the requested output path. -/
theorem processMindMaps_spec (env : BatchEnv) (rows : List JSVal)
    (mc bs : Nat) (out : String) (hbs : 1 ≤ bs)
    (hcov : ∀ k, CoversRange (env.completionOrder k) (chunkLen bs rows.length k)) :
    processMindMaps env rows mc bs out =
      ((match env.finalWriteResult with
        | .ok _ => .ok (reportSpec env rows)
        | .error e => .error e),
       (List.range (numChunks bs rows.length)).map (checkpointSpec env rows bs) ++
         [{ path := out, contents := reportSpec env rows,
            success := isOkB env.finalWriteResult }]) := by
  unfold processMindMaps
  rw [runChunks_spec bs hbs rows env 0 0 [] [] (by intro k; simpa using hcov k)]
  simp only [Nat.zero_add, List.nil_append]
  unfold reportSpec rowOutcome checkpointSpec
  cases hfw : env.finalWriteResult with
  | ok u =>
    simp [isOkB, rowOutcome]
  | error e =>
    simp [isOkB, rowOutcome]

/-- Settlement coverage of the one-task completion order `[0]` for a
single-row input under the default batch size. -/
theorem singletonCoverage : ∀ k, CoversRange [0] (chunkLen 100 1 k) := by
  intro k j hj
  have h1 : chunkLen 100 1 k ≤ 1 := by
    unfold chunkLen
    omega
  have hj0 : j = 0 := by omega
  subst hj0
  exact List.mem_singleton.mpr rfl

/-- C4 counterexample: with a single row and a failing final write, the run
at the concrete environment produces the rethrown write error — no Report is
returned to the caller, contradicting the claim that the in-memory Report is
returned even when the final write fails. -/
theorem c4_final_write_failure_counterexample :
    (processMindMaps (genFailBatchEnv (.error fsWriteError)) [sampleRow]
        5 100 "out.csv").1 = .error fsWriteError := by
  rfl

/-- C4 as amended: after all chunks complete, the in-memory Report is
returned exactly when the final write succeeds; a final-write failure is
rethrown to the caller (the catch logs and re-throws), so no Report is
returned in that case. -/
theorem c4_report_returned_iff_final_write_succeeds (env : BatchEnv)
    (rows : List JSVal) (mc bs : Nat) (out : String) (hbs : 1 ≤ bs)
    (hcov : ∀ k, CoversRange (env.completionOrder k) (chunkLen bs rows.length k)) :
    (∀ u, env.finalWriteResult = .ok u →
      (processMindMaps env rows mc bs out).1 = .ok (reportSpec env rows)) ∧
    (∀ e, env.finalWriteResult = .error e →
      (processMindMaps env rows mc bs out).1 = .error e) := by
  rw [processMindMaps_spec env rows mc bs out hbs hcov]
  constructor
  · intro u hu
    simp [hu]
  · intro e he
    simp [he]

/-- Witness for the amended C4: a successful final write returns the report,
and the same batch with a failing final write returns the error. -/
theorem c4_report_returned_iff_final_write_succeeds_witness :
    (processMindMaps (genFailBatchEnv (.ok ())) [sampleRow] 5 100 "out.csv").1 =
      .ok (reportSpec (genFailBatchEnv (.ok ())) [sampleRow]) ∧
    (processMindMaps (genFailBatchEnv (.error fsWriteError)) [sampleRow]
        5 100 "out.csv").1 = .error fsWriteError := by
  constructor
  · exact (c4_report_returned_iff_final_write_succeeds
      (genFailBatchEnv (.ok ())) [sampleRow] 5 100 "out.csv" (by decide)
      (by intro k; exact singletonCoverage k)).1 () rfl
  · exact (c4_report_returned_iff_final_write_succeeds
      (genFailBatchEnv (.error fsWriteError)) [sampleRow] 5 100 "out.csv" (by decide)
      (by intro k; exact singletonCoverage k)).2 fsWriteError rfl

/-- C6 counterexample: running the orchestrator with output path
`results/output.csv` attempts its checkpoint at the FIXED location
`/tmp/output_results.csv.partial.1` — not at a location derived from the
requested output path (`results/output.csv.partial.1`), contradicting the
claimed `<output>.partial.<processedCount>` form. -/
theorem c6_checkpoint_path_counterexample :
    ((processMindMaps (genFailBatchEnv (.ok ())) [sampleRow] 5 100
        "results/output.csv").2).map WriteAttempt.path =
      ["/tmp/output_results.csv.partial.1", "results/output.csv"] ∧
    "/tmp/output_results.csv.partial.1" ≠
      "results/output.csv" ++ ".partial." ++ "1" := by
  constructor
  · rfl
  · decide

/-- C6 as amended: after every chunk the orchestrator writes the cumulative
Report so far to `/tmp/output_results.csv.partial.<processedRowCount>` — a
fixed base name under `/tmp` carrying the count of rows processed so far,
NOT derived from the requested output path — and a checkpoint-write failure
is logged and swallowed: it never changes what the batch returns. -/
theorem c6_checkpoint_cumulative_fixed_path (env : BatchEnv)
    (rows : List JSVal) (mc bs : Nat) (out : String) (hbs : 1 ≤ bs)
    (hcov : ∀ k, CoversRange (env.completionOrder k) (chunkLen bs rows.length k)) :
    ((processMindMaps env rows mc bs out).2).dropLast =
      (List.range (numChunks bs rows.length)).map (checkpointSpec env rows bs) ∧
    (∀ ck2, (processMindMaps { env with checkpointResult := ck2 }
        rows mc bs out).1 = (processMindMaps env rows mc bs out).1) := by
  constructor
  · rw [processMindMaps_spec env rows mc bs out hbs hcov]
    exact List.dropLast_concat
  · intro ck2
    rw [processMindMaps_spec env rows mc bs out hbs hcov,
      processMindMaps_spec { env with checkpointResult := ck2 } rows mc bs out hbs
        (by intro k; exact hcov k)]
    rfl

/-- Witness for the amended C6 at a single-row run whose checkpoint write
fails: the checkpoint attempt targets the fixed partial path and the
returned report is unchanged. -/
theorem c6_checkpoint_cumulative_fixed_path_witness :
    ((processMindMaps (genFailBatchEnv (.ok ())) [sampleRow] 5 100
        "out.csv").2).dropLast =
      (List.range (numChunks 100 1)).map
        (checkpointSpec (genFailBatchEnv (.ok ())) [sampleRow] 100) ∧
    (processMindMaps
        { genFailBatchEnv (.ok ()) with
            checkpointResult := fun _ =>
              .error { cls := .fileSystemError, message := "checkpoint failed" } }
        [sampleRow] 5 100 "out.csv").1 =
      (processMindMaps (genFailBatchEnv (.ok ())) [sampleRow] 5 100 "out.csv").1 := by
  have h := c6_checkpoint_cumulative_fixed_path (genFailBatchEnv (.ok ()))
    [sampleRow] 5 100 "out.csv" (by decide) (by intro k; exact singletonCoverage k)
  exact ⟨h.1, h.2 _⟩


/-- Every outcome of `processRow` carries the row's fallback topic
`row.topic || 'Unknown Topic'`, whatever the collaborators do. -/
theorem processRow_topic (env : RowEnv) (row : JSVal) :
    (processRow env row).topic = jsOrStr (row.getProp "topic") "Unknown Topic" := by
  rcases h1 : validateCSVInputRowOrThrow row with ve | u
  · simp [processRow, h1]
  · rcases h2 : env.genResult with e | mm
    · simp [processRow, h1, h2]
    · rcases h3 : validateMindMapOrThrow mm with ve | u2
      · simp [processRow, h1, h2, h3]
      · rcases h4 : env.storeResult mm with e | s
        · simp [processRow, h1, h2, h3, h4]
        · simp [processRow, h1, h2, h3, h4]

/-- `v || fallback` is `v` for a non-empty string. -/
theorem jsOrStr_str (t fb : String) (h : t ≠ "") :
    jsOrStr (.str t) fb = .str t := by
  simp [jsOrStr, JSVal.truthy, h]

/-- C1: for valid input rows (non-empty string subject and topic), a
completed `processMindMaps` run returns a report with exactly one outcome
per input row, and the outcome at position `i` carries the topic of input
row `i` — for every concurrency bound, batch size and completion order. -/
theorem c1_report_preserves_order (env : BatchEnv) (rows : List JSVal)
    (mc bs : Nat) (out : String) (hbs : 1 ≤ bs)
    (hcov : ∀ k, CoversRange (env.completionOrder k) (chunkLen bs rows.length k))
    (hfin : env.finalWriteResult = .ok ())
    (hrows : ∀ row ∈ rows,
      (∃ s : String, row.getProp "subject" = .str s ∧ s ≠ "") ∧
      (∃ t : String, row.getProp "topic" = .str t ∧ t ≠ "")) :
    (processMindMaps env rows mc bs out).1 = .ok (reportSpec env rows) ∧
    (reportSpec env rows).length = rows.length ∧
    (∀ i, i < rows.length →
      ((reportSpec env rows).getD i
          { topic := .undefined, status := false, error := none }).topic =
        (rows.getD i .undefined).getProp "topic") := by
  refine ⟨?_, ?_, ?_⟩
  · rw [processMindMaps_spec env rows mc bs out hbs hcov, hfin]
  · unfold reportSpec
    rw [List.length_map, List.length_range]
  · intro i hi
    have hgetD : (reportSpec env rows).getD i
        { topic := .undefined, status := false, error := none } =
          rowOutcome env rows i := by
      unfold reportSpec
      rw [List.getD_eq_getElem?_getD, List.getElem?_map, List.getElem?_range hi]
      rfl
    rw [hgetD]
    unfold rowOutcome
    rw [processRow_topic]
    have hmem : rows.getD i .undefined ∈ rows := by
      rw [List.getD_eq_getElem?_getD, List.getElem?_eq_getElem hi]
      exact List.getElem_mem hi
    obtain ⟨_, t, ht, htne⟩ := hrows _ hmem
    rw [ht, jsOrStr_str t _ htne]

/-- Witness for C1 at a one-row batch whose generation fails (the outcome is
a Failure, but the report still has one entry carrying the row's topic). -/
theorem c1_report_preserves_order_witness :
    (processMindMaps (genFailBatchEnv (.ok ())) [sampleRow] 5 100 "out.csv").1 =
      .ok (reportSpec (genFailBatchEnv (.ok ())) [sampleRow]) ∧
    (reportSpec (genFailBatchEnv (.ok ())) [sampleRow]).length = 1 ∧
    ((reportSpec (genFailBatchEnv (.ok ())) [sampleRow]).getD 0
        { topic := .undefined, status := false, error := none }).topic =
      ([sampleRow].getD 0 .undefined).getProp "topic" := by
  have h := c1_report_preserves_order (genFailBatchEnv (.ok ())) [sampleRow]
    5 100 "out.csv" (by decide) (by intro k; exact singletonCoverage k) rfl
    (by
      intro row hrow
      rw [List.mem_singleton] at hrow
      subst hrow
      exact ⟨⟨"Math", rfl, by decide⟩, ⟨"Algebra", rfl, by decide⟩⟩)
  exact ⟨h.1, h.2.1, h.2.2 0 (by decide)⟩


/-- C3: `processRow` never throws — it is total, and every error raised while
processing a single row becomes a Failure outcome whose `error` field is that
error's message: an invalid row shape yields the thrown ValidationError's
message before any generation is attempted; a generation failure (after the
retry executor gives up), a document-validation failure, and a storage
failure each yield the corresponding error's message
(`error.message || 'Unknown processing error for this topic'`).  The final
conjunct shows the batch keeps processing the remaining rows: the completed
run returns one outcome per input row no matter which rows failed. -/
theorem c3_row_failures_become_failure_outcomes :
    (∀ (env : RowEnv) (row : JSVal), validateCSVInputRow row = false →
      processRow env row =
        { topic := jsOrStr (row.getProp "topic") "Unknown Topic",
          status := false, error := some "Invalid CSV input row structure" }) ∧
    (∀ (env : RowEnv) (row : JSVal) (e : JsErr), validateCSVInputRow row = true →
      env.genResult = .error e →
      processRow env row =
        { topic := jsOrStr (row.getProp "topic") "Unknown Topic",
          status := false, error := some (messageOrUnknown e) }) ∧
    (∀ (env : RowEnv) (row mm : JSVal), validateCSVInputRow row = true →
      env.genResult = .ok mm → ajvValidMindMap mm = false →
      processRow env row =
        { topic := jsOrStr (row.getProp "topic") "Unknown Topic",
          status := false, error := some "Invalid mind map structure" }) ∧
    (∀ (env : RowEnv) (row mm : JSVal) (e : JsErr), validateCSVInputRow row = true →
      env.genResult = .ok mm → ajvValidMindMap mm = true →
      env.storeResult mm = .error e →
      processRow env row =
        { topic := jsOrStr (row.getProp "topic") "Unknown Topic",
          status := false, error := some (messageOrUnknown e) }) ∧
    (∀ (env : BatchEnv) (rows : List JSVal) (mc bs : Nat) (out : String),
      1 ≤ bs →
      (∀ k, CoversRange (env.completionOrder k) (chunkLen bs rows.length k)) →
      env.finalWriteResult = .ok () →
      (processMindMaps env rows mc bs out).1 = .ok (reportSpec env rows) ∧
      (reportSpec env rows).length = rows.length) := by
  refine ⟨?_, ?_, ?_, ?_, ?_⟩
  · intro env row hv
    simp [processRow, validateCSVInputRowOrThrow, hv]
  · intro env row e hv hg
    simp [processRow, validateCSVInputRowOrThrow, hv, hg]
  · intro env row mm hv hg hmm
    simp [processRow, validateCSVInputRowOrThrow, hv, hg,
      validateMindMapOrThrow, hmm, messageOrUnknown]
  · intro env row mm e hv hg hmm hs
    simp [processRow, validateCSVInputRowOrThrow, hv, hg,
      validateMindMapOrThrow, hmm, hs]
  · intro env rows mc bs out hbs hcov hfin
    constructor
    · rw [processMindMaps_spec env rows mc bs out hbs hcov, hfin]
    · unfold reportSpec
      rw [List.length_map, List.length_range]

/-- Witness for C3: a valid row whose generation fails becomes a Failure
outcome carrying `'Service unavailable'`, and a one-row batch of that shape
still returns a one-entry report. -/
theorem c3_row_failures_become_failure_outcomes_witness :
    processRow genFailRowEnv sampleRow =
      { topic := jsOrStr (sampleRow.getProp "topic") "Unknown Topic",
        status := false, error := some (messageOrUnknown serviceUnavailable) } ∧
    (processMindMaps (genFailBatchEnv (.ok ())) [sampleRow] 5 100 "out.csv").1 =
      .ok (reportSpec (genFailBatchEnv (.ok ())) [sampleRow]) ∧
    (reportSpec (genFailBatchEnv (.ok ())) [sampleRow]).length = 1 := by
  have hrow := c3_row_failures_become_failure_outcomes.2.1 genFailRowEnv sampleRow
    serviceUnavailable (by decide) rfl
  have hbatch := c3_row_failures_become_failure_outcomes.2.2.2.2 
    (genFailBatchEnv (.ok ())) [sampleRow] 5 100 "out.csv" (by decide)
    (by intro k; exact singletonCoverage k) rfl
  exact ⟨hrow, hbatch.1, hbatch.2⟩

/-- The superseded part_004 translation keeps a child lacking a string `text`
field, while the wired implementation drops it: the divergence between the
two duplicated `OpenAIService.processMindMapNode` bodies. -/
theorem legacy_child_loop_keeps_textless_children :
    ((processChildrenLegacy [droppedChildRaw] 1).1).length = 1 ∧
    ((processChildren [droppedChildRaw] 1).1).length = 0 := by
  constructor
  · conv_lhs => rw [show processChildrenLegacy [droppedChildRaw] 1 =
      ((processMindMapNodeLegacy droppedChildRaw 1).1 ::
        (processChildrenLegacy [] (processMindMapNodeLegacy droppedChildRaw 1).2).1,
       (processChildrenLegacy [] (processMindMapNodeLegacy droppedChildRaw 1).2).2)
      from by conv_lhs => unfold processChildrenLegacy]
    have hnil : ∀ ctr, processChildrenLegacy [] ctr = ([], ctr) := by
      intro ctr
      unfold processChildrenLegacy
      rfl
    rw [hnil]
    rfl
  · rw [processChildren_cons_drop _ _ _ (by decide), processChildren_nil]
    rfl

end MMG